import Mathlib

/-!
Verification of the attribution/ROC analysis components of the Odyssey
repository (notebooks `grad_attribution.ipynb` and `CompareAUROC-Poster.ipynb`
plus the model configuration file).

The repository's own code is the notebook orchestration; the Path-Integrated
Gradient Estimator, Baseline Provider, Aggregator and Report Renderer live in
the external `odyssey.interp.attribution.Attribution` class, which is not part
of the repository snapshot.  Those components are therefore modelled from the
specification (each such definition carries a doc comment starting with
"Modelled from the spec:"), while the notebook-level constants, invocation
sequences and the ROC comparison data flow are embedded directly from the
notebook sources.
-/

namespace Odyssey

/-! ## Notebook constants (grad_attribution.ipynb, Arguments cell) -/

/-- Random seed set in the attribution notebook's Arguments cell. -/
def SEED : ℕ := 42

/-- Batch size set in the attribution notebook's Arguments cell. -/
def BATCH_SIZE : ℕ := 32

/-- Number of integration steps set in the attribution notebook's Arguments
cell and passed to the `Attribution` constructor as `n_steps`. -/
def N_STEPS : ℕ := 100

/-- Maximum sequence length set in the attribution notebook's Arguments cell. -/
def MAX_LEN : ℕ := 512

/-! ## Path-Integrated Gradient Estimator

Attribution vectors are modelled as functions `Fin n → ℚ` (one rational per
input position or per (position, embedding-dimension) pair, flattened), and
the differentiable scoring capability as an explicit gradient oracle, as the
spec's design notes require ("a narrow capability computing gradients at a
point"). -/

/-- Modelled from the spec: the point `x₀ + (k/N)·(x − x₀)` on the straight
integration path from the baseline `x₀` to the input `x`. -/
def interpPoint {n : ℕ} (x₀ x : Fin n → ℚ) (N k : ℕ) : Fin n → ℚ :=
  fun j => x₀ j + ((k : ℚ) / (N : ℚ)) * (x j - x₀ j)

/-- Modelled from the spec: the Path-Integrated Gradient Estimator in its
closed contract form, `a = (x − x₀) ⊙ (1/N) Σ_{k=1..N} ∇f(x₀ + (k/N)(x − x₀))`,
with `gradf` the gradient oracle of the scoring function. -/
def igAttr {n : ℕ} (gradf : (Fin n → ℚ) → Fin n → ℚ) (x x₀ : Fin n → ℚ)
    (N : ℕ) : Fin n → ℚ :=
  fun i =>
    (x i - x₀ i) *
      ((∑ k ∈ Finset.range N, gradf (interpPoint x₀ x N (k + 1)) i) / (N : ℚ))

/-- Modelled from the spec: running accumulation of path gradients, the way an
implementation walks the `N` integration steps one at a time.  `gradAccum … N k`
holds the accumulator after the first `k` of the `N` steps. -/
def gradAccum {n : ℕ} (gradf : (Fin n → ℚ) → Fin n → ℚ) (x x₀ : Fin n → ℚ)
    (N : ℕ) : ℕ → Fin n → ℚ
  | 0 => fun _ => 0
  | k + 1 => fun i =>
      gradAccum gradf x x₀ N k i + gradf (interpPoint x₀ x N (k + 1)) i

/-- Modelled from the spec: the estimator as executed, scaling the fully
accumulated gradient sum by `1/N` and multiplying element-wise by `x − x₀`. -/
def igAttrRun {n : ℕ} (gradf : (Fin n → ℚ) → Fin n → ℚ) (x x₀ : Fin n → ℚ)
    (N : ℕ) : Fin n → ℚ :=
  fun i => (x i - x₀ i) * (gradAccum gradf x x₀ N N i / (N : ℚ))

/-- Coordinate-wise sum of an attribution vector. -/
def attrSum {n : ℕ} (a : Fin n → ℚ) : ℚ := ∑ i, a i

lemma gradAccum_eq_sum {n : ℕ} (gradf : (Fin n → ℚ) → Fin n → ℚ)
    (x x₀ : Fin n → ℚ) (N k : ℕ) (i : Fin n) :
    gradAccum gradf x x₀ N k i
      = ∑ j ∈ Finset.range k, gradf (interpPoint x₀ x N (j + 1)) i := by
  induction k with
  | zero => simp [gradAccum]
  | succ m ih => rw [Finset.sum_range_succ, ← ih]; rfl

/-- C2: for every scoring-gradient oracle, input, baseline of identical shape
and step count N ≥ 1, the estimator as executed returns exactly the contract
formula `(x − x₀) ⊙ (1/N) Σ_{k=1..N} ∇f(x₀ + (k/N)(x − x₀))`, and the notebook
invokes it with `N_STEPS = 100`. -/
theorem igAttrRun_eq_contract {n : ℕ} (gradf : (Fin n → ℚ) → Fin n → ℚ)
    (x x₀ : Fin n → ℚ) (N : ℕ) (_hN : 1 ≤ N) :
    igAttrRun gradf x x₀ N = igAttr gradf x x₀ N ∧ N_STEPS = 100 := by
  refine ⟨funext fun i => ?_, rfl⟩
  unfold igAttrRun igAttr
  rw [gradAccum_eq_sum]

/-- Witness for C2 at a concrete oracle, input, baseline and N = 100. -/
theorem igAttrRun_eq_contract_witness :
    (1 ≤ 100)
      ∧ (igAttrRun (fun v i => v i * v i) (fun _ => 3) (fun _ => 1) 100
          = igAttr (fun v i => v i * v i) ((fun _ => 3) : Fin 2 → ℚ)
              (fun _ => 1) 100
        ∧ N_STEPS = 100) :=
  ⟨by norm_num,
    igAttrRun_eq_contract (fun v i => v i * v i) (fun _ => 3) (fun _ => 1) 100
      (by norm_num)⟩

/-! ## Completeness (claim C1)

The spec's testable completeness property is stated against a smooth
closed-form scoring function.  We use the general quadratic family
`f(v) = Σᵢ aᵢ vᵢ² + bᵢ vᵢ + c`, whose gradient is `(∇f v)ᵢ = 2 aᵢ vᵢ + bᵢ`,
and compute the Riemann-sum completeness error of the estimator exactly. -/

/-- Quadratic closed-form scoring function `Σ i, a i * v i ^ 2 + b i * v i + c`. -/
def quadF {n : ℕ} (a b : Fin n → ℚ) (c : ℚ) (v : Fin n → ℚ) : ℚ :=
  (∑ i, (a i * v i ^ 2 + b i * v i)) + c

/-- Gradient oracle of `quadF`. -/
def quadGrad {n : ℕ} (a b : Fin n → ℚ) (v : Fin n → ℚ) : Fin n → ℚ :=
  fun i => 2 * a i * v i + b i

lemma sum_range_cast_add_one (N : ℕ) :
    (∑ k ∈ Finset.range N, ((k : ℚ) + 1)) = (N : ℚ) * ((N : ℚ) + 1) / 2 := by
  induction N with
  | zero => simp
  | succ m ih =>
      rw [Finset.sum_range_succ, ih]
      push_cast
      ring

lemma igAttr_quad_coord {n : ℕ} (a b : Fin n → ℚ) (x x₀ : Fin n → ℚ)
    (N : ℕ) (hN : 1 ≤ N) (i : Fin n) :
    igAttr (quadGrad a b) x x₀ N i
      = (x i - x₀ i) * (2 * a i * x₀ i + b i)
        + a i * (x i - x₀ i) ^ 2 * ((N : ℚ) + 1) / (N : ℚ) := by
  have hN0 : (N : ℚ) ≠ 0 := Nat.cast_ne_zero.mpr (by omega)
  unfold igAttr quadGrad interpPoint
  push_cast
  have hsum : (∑ k ∈ Finset.range N,
        (2 * a i * (x₀ i + (((k : ℚ) + 1) / (N : ℚ)) * (x i - x₀ i)) + b i))
      = (N : ℚ) * (2 * a i * x₀ i + b i)
        + (2 * a i * (x i - x₀ i) / (N : ℚ))
            * ((N : ℚ) * ((N : ℚ) + 1) / 2) := by
    have h1 : ∀ k ∈ Finset.range N,
        2 * a i * (x₀ i + (((k : ℚ) + 1) / (N : ℚ)) * (x i - x₀ i)) + b i
          = (2 * a i * x₀ i + b i)
            + (2 * a i * (x i - x₀ i) / (N : ℚ)) * ((k : ℚ) + 1) := by
      intro k _
      field_simp
      ring
    rw [Finset.sum_congr rfl h1, Finset.sum_add_distrib, Finset.sum_const,
        Finset.card_range, ← Finset.mul_sum, sum_range_cast_add_one]
    simp only [nsmul_eq_mul]
  rw [hsum]
  field_simp
  ring

lemma igAttr_quad_error {n : ℕ} (a b : Fin n → ℚ) (c : ℚ) (x x₀ : Fin n → ℚ)
    (N : ℕ) (hN : 1 ≤ N) :
    attrSum (igAttr (quadGrad a b) x x₀ N) - (quadF a b c x - quadF a b c x₀)
      = (∑ i, a i * (x i - x₀ i) ^ 2) / (N : ℚ) := by
  have hN0 : (N : ℚ) ≠ 0 := Nat.cast_ne_zero.mpr (by omega)
  unfold attrSum quadF
  rw [Finset.sum_congr rfl fun i _ => igAttr_quad_coord a b x x₀ N hN i]
  have h1 : ∀ s g h : ℚ, s - ((g + c) - (h + c)) = (s - g) + h := by
    intro s g h
    ring
  rw [h1, ← Finset.sum_sub_distrib, ← Finset.sum_add_distrib, Finset.sum_div]
  refine Finset.sum_congr rfl fun i _ => ?_
  field_simp
  ring

/-- C1: for the smooth closed-form quadratic scoring family, with any input,
baseline of identical shape and step counts 1 ≤ N ≤ M, the coordinate-wise sum
of the estimator's attribution vector differs from f(x) − f(x₀) by exactly
|Σᵢ aᵢ (xᵢ − x₀ᵢ)²| / N (so it approximates f(x) − f(x₀) with error shrinking
like 1/N), and the error at the larger step count M is no larger than the
error at N — in particular the error at N = 100 is no larger than at N = 10. -/
theorem igAttr_completeness_error_antitone {n : ℕ} (a b : Fin n → ℚ) (c : ℚ)
    (x x₀ : Fin n → ℚ) (N M : ℕ) (hN : 1 ≤ N) (hNM : N ≤ M) :
    |attrSum (igAttr (quadGrad a b) x x₀ N) - (quadF a b c x - quadF a b c x₀)|
        = |∑ i, a i * (x i - x₀ i) ^ 2| / (N : ℚ)
      ∧ |attrSum (igAttr (quadGrad a b) x x₀ M)
            - (quadF a b c x - quadF a b c x₀)|
          ≤ |attrSum (igAttr (quadGrad a b) x x₀ N)
              - (quadF a b c x - quadF a b c x₀)| := by
  have hM : 1 ≤ M := le_trans hN hNM
  have eN := igAttr_quad_error a b c x x₀ N hN
  have eM := igAttr_quad_error a b c x x₀ M hM
  have hNpos : (0 : ℚ) < (N : ℚ) := by exact_mod_cast hN
  have hMpos : (0 : ℚ) < (M : ℚ) := by exact_mod_cast hM
  constructor
  · rw [eN, abs_div, abs_of_nonneg (le_of_lt hNpos)]
  · rw [eN, eM, abs_div, abs_div, abs_of_nonneg (le_of_lt hNpos),
        abs_of_nonneg (le_of_lt hMpos)]
    gcongr

/-- Concrete coefficient vector for the C1 witness. -/
def wA : Fin 1 → ℚ := fun _ => 1

/-- Concrete linear coefficient vector for the C1 witness. -/
def wB : Fin 1 → ℚ := fun _ => 0

/-- Concrete input for the C1 witness. -/
def wX : Fin 1 → ℚ := fun _ => 1

/-- Concrete baseline for the C1 witness. -/
def wX0 : Fin 1 → ℚ := fun _ => 0

/-- Witness for C1 at a concrete quadratic scoring function, input, baseline,
N = 10 and M = 100. -/
theorem igAttr_completeness_error_antitone_witness :
    (1 ≤ 10 ∧ 10 ≤ 100)
      ∧ (|attrSum (igAttr (quadGrad wA wB) wX wX0 10)
              - (quadF wA wB 0 wX - quadF wA wB 0 wX0)|
            = |∑ i, wA i * (wX i - wX0 i) ^ 2| / ((10 : ℕ) : ℚ)
          ∧ |attrSum (igAttr (quadGrad wA wB) wX wX0 100)
                - (quadF wA wB 0 wX - quadF wA wB 0 wX0)|
              ≤ |attrSum (igAttr (quadGrad wA wB) wX wX0 10)
                  - (quadF wA wB 0 wX - quadF wA wB 0 wX0)|) :=
  ⟨⟨by norm_num, by norm_num⟩,
    igAttr_completeness_error_antitone wA wB 0 wX wX0 10 100 (by norm_num)
      (by norm_num)⟩

/-- C4: if the baseline equals the input, the attribution vector is all
zeros, for every gradient oracle and every step count. -/
theorem igAttr_zero_of_baseline_eq_input {n : ℕ}
    (gradf : (Fin n → ℚ) → Fin n → ℚ) (x x₀ : Fin n → ℚ) (N : ℕ)
    (h : x₀ = x) : igAttr gradf x x₀ N = fun _ => 0 := by
  subst h
  funext i
  simp [igAttr]

/-- Witness for C4 at a concrete oracle, a concrete input equal to its
baseline, and N = 7. -/
theorem igAttr_zero_of_baseline_eq_input_witness :
    igAttr (fun v i => 2 * v i) (fun _ => 5) ((fun _ => 5) : Fin 3 → ℚ) 7
      = fun _ => 0 :=
  igAttr_zero_of_baseline_eq_input (fun v i => 2 * v i) (fun _ => 5)
    (fun _ => 5) 7 rfl

/-! ## Aggregator (claim C5) -/

/-- Modelled from the spec: the Aggregator's position-wise arithmetic mean of
a batch of attribution vectors of identical shape. -/
def aggregate {n : ℕ} (batch : List (Fin n → ℚ)) : Fin n → ℚ :=
  fun i => (batch.map fun a => a i).sum / (batch.length : ℚ)

lemma length_mul_aggregate {n : ℕ} (batch : List (Fin n → ℚ)) (i : Fin n) :
    (batch.length : ℚ) * aggregate batch i = (batch.map fun a => a i).sum := by
  cases batch with
  | nil => simp [aggregate]
  | cons v rest =>
      unfold aggregate
      rw [mul_div_cancel₀]
      exact Nat.cast_ne_zero.mpr (List.length_cons v rest ▸ Nat.succ_ne_zero _)

/-- C5: position-wise mean aggregation of the concatenation of two batches of
identical shape equals the batch-size-weighted combination of the two
sub-batch aggregates, and aggregation is order-independent. -/
theorem aggregate_append_weighted {n : ℕ} (A B : List (Fin n → ℚ)) :
    (∀ i, aggregate (A ++ B) i
        = ((A.length : ℚ) * aggregate A i + (B.length : ℚ) * aggregate B i)
            / ((A.length : ℚ) + (B.length : ℚ)))
      ∧ aggregate (A ++ B) = aggregate (B ++ A) := by
  constructor
  · intro i
    rw [length_mul_aggregate A i, length_mul_aggregate B i]
    unfold aggregate
    rw [List.map_append, List.sum_append, List.length_append]
    push_cast
    rfl
  · funext i
    unfold aggregate
    rw [List.map_append, List.sum_append, List.length_append,
        List.map_append, List.sum_append, List.length_append,
        add_comm ((A.map fun a => a i).sum), Nat.add_comm A.length]

/-! ## Notebook statement sequence (grad_attribution.ipynb)

The executed statements of the attribution notebook, in cell order, after
the import cell and the Arguments cell of literal constants (embedded above
as `SEED`, `BATCH_SIZE`, `N_STEPS`, `MAX_LEN`). -/

/-- One executed statement of the attribution notebook. -/
inductive NbStmt where
  | seedCall (seed : ℕ)
  | cudaLaunchBlocking
  | emptyCache
  | setMatmulPrecision
  | selectDevice
  | loadConfig
  | loadTokenizer
  | loadData
  | sampleHead (count : ℕ)
  | loadModel
  | attributionInit (batchSize nSteps maxLen : ℕ)
  | averageTokensAttr
  | averageEmbeddingsAttr
  | visualizeIG (maxRows : ℕ) (taskName : String)
  | visualizeEG (maxRows numBaselines : ℕ) (taskName : String)
deriving DecidableEq, Repr

/-- The attribution notebook's executed statements in source order. -/
def notebookStmts : List NbStmt :=
  [ .seedCall SEED,
    .cudaLaunchBlocking,
    .emptyCache,
    .setMatmulPrecision,
    .selectDevice,
    .loadConfig,
    .loadTokenizer,
    .loadData,
    .sampleHead 20,
    .loadModel,
    .attributionInit BATCH_SIZE N_STEPS MAX_LEN,
    .averageTokensAttr,
    .averageEmbeddingsAttr,
    .visualizeIG 10 "post-discharge mortality",
    .visualizeEG 10 10 "post-discharge mortality" ]

/-! ## Stateful view of an attribution run (claims C6 and C7)

To state determinism and the frame property, an attribution run is embedded as
a state machine whose state carries the model parameters, the input, the
baseline, the gradient accumulator, and an ambient random-number-generator
state.  Integrated-gradient steps only touch the accumulator; the rng exists
because the Baseline Provider's expected-gradients sampling mode consumes it. -/

/-- State visible to one attribution run. -/
structure AttrState (n : ℕ) where
  params : List ℚ
  input : Fin n → ℚ
  baseline : Fin n → ℚ
  acc : Fin n → ℚ
  rng : ℕ
deriving DecidableEq

/-- Linear-congruential successor of the ambient rng state. -/
def nextRng (r : ℕ) : ℕ := (1103515245 * r + 12345) % 2 ^ 31

/-- Modelled from the spec: the Baseline Provider's sampling step for the
expected-gradients mode, which draws a baseline index from a reference pool
and advances the ambient rng — the one operation of the system that consumes
ambient state. -/
def sampleBaselineIdx {n : ℕ} (poolSize : ℕ) (s : AttrState n) :
    ℕ × AttrState n :=
  (s.rng % poolSize, { s with rng := nextRng s.rng })

/-- Modelled from the spec: one integration step of the estimator, adding the
gradient at path point `k` of `N` (evaluated from the state's parameters) to
the accumulator.  No other state field is written. -/
def igStep {n : ℕ} (gradF : List ℚ → (Fin n → ℚ) → Fin n → ℚ) (N k : ℕ)
    (s : AttrState n) : AttrState n :=
  { s with
      acc := fun i =>
        s.acc i + gradF s.params (interpPoint s.baseline s.input N k) i }

/-- Modelled from the spec: the first `k` of the `N` integration steps. -/
def igLoop {n : ℕ} (gradF : List ℚ → (Fin n → ℚ) → Fin n → ℚ) (N : ℕ) :
    ℕ → AttrState n → AttrState n
  | 0, s => s
  | k + 1, s => igStep gradF N (k + 1) (igLoop gradF N k s)

/-- Modelled from the spec: a full attribution run over all `N` steps. -/
def igRunState {n : ℕ} (gradF : List ℚ → (Fin n → ℚ) → Fin n → ℚ) (N : ℕ)
    (s : AttrState n) : AttrState n :=
  igLoop gradF N N s

/-- Modelled from the spec: the attribution vector read off a finished run. -/
def igOutput {n : ℕ} (gradF : List ℚ → (Fin n → ℚ) → Fin n → ℚ) (N : ℕ)
    (s : AttrState n) : Fin n → ℚ :=
  fun i =>
    (s.input i - s.baseline i) * ((igRunState gradF N s).acc i / (N : ℚ))

lemma igLoop_params {n : ℕ} (gradF : List ℚ → (Fin n → ℚ) → Fin n → ℚ)
    (N k : ℕ) (s : AttrState n) : (igLoop gradF N k s).params = s.params := by
  induction k with
  | zero => rfl
  | succ m ih => simpa [igLoop, igStep] using ih

lemma igLoop_input {n : ℕ} (gradF : List ℚ → (Fin n → ℚ) → Fin n → ℚ)
    (N k : ℕ) (s : AttrState n) : (igLoop gradF N k s).input = s.input := by
  induction k with
  | zero => rfl
  | succ m ih => simpa [igLoop, igStep] using ih

lemma igLoop_baseline {n : ℕ} (gradF : List ℚ → (Fin n → ℚ) → Fin n → ℚ)
    (N k : ℕ) (s : AttrState n) :
    (igLoop gradF N k s).baseline = s.baseline := by
  induction k with
  | zero => rfl
  | succ m ih => simpa [igLoop, igStep] using ih

lemma igLoop_acc_congr {n : ℕ} (gradF : List ℚ → (Fin n → ℚ) → Fin n → ℚ)
    (N k : ℕ) (s₁ s₂ : AttrState n) (hp : s₁.params = s₂.params)
    (hi : s₁.input = s₂.input) (hb : s₁.baseline = s₂.baseline)
    (ha : s₁.acc = s₂.acc) :
    (igLoop gradF N k s₁).acc = (igLoop gradF N k s₂).acc := by
  induction k with
  | zero => exact ha
  | succ m ih =>
      show (igStep gradF N (m + 1) (igLoop gradF N m s₁)).acc
        = (igStep gradF N (m + 1) (igLoop gradF N m s₂)).acc
      funext i
      simp only [igStep]
      rw [ih, igLoop_params, igLoop_params, igLoop_input, igLoop_input,
          igLoop_baseline, igLoop_baseline, hp, hi, hb]

/-- C7: an attribution run leaves the model parameters, the input and the
baseline unchanged — only the gradient accumulator (transient computation)
is written, so no gradient is applied back to the parameters. -/
theorem igRunState_frame {n : ℕ} (gradF : List ℚ → (Fin n → ℚ) → Fin n → ℚ)
    (N : ℕ) (s : AttrState n) :
    (igRunState gradF N s).params = s.params
      ∧ (igRunState gradF N s).input = s.input
      ∧ (igRunState gradF N s).baseline = s.baseline :=
  ⟨igLoop_params gradF N N s, igLoop_input gradF N N s,
    igLoop_baseline gradF N N s⟩

/-- C6: two attribution runs over states that agree on model parameters,
input, baseline and accumulator — but may hold arbitrarily different ambient
rng states — produce bit-for-bit identical output, so the result is a pure
function of (model parameters, input, baseline); moreover the notebook's
first executed statement seeds the ambient rng, with seed 42. -/
theorem igOutput_deterministic {n : ℕ}
    (gradF : List ℚ → (Fin n → ℚ) → Fin n → ℚ) (N : ℕ) (s₁ s₂ : AttrState n)
    (hp : s₁.params = s₂.params) (hi : s₁.input = s₂.input)
    (hb : s₁.baseline = s₂.baseline) (ha : s₁.acc = s₂.acc) :
    igOutput gradF N s₁ = igOutput gradF N s₂
      ∧ notebookStmts.head? = some (NbStmt.seedCall SEED) ∧ SEED = 42 := by
  refine ⟨?_, rfl, rfl⟩
  funext i
  unfold igOutput igRunState
  rw [igLoop_acc_congr gradF N N s₁ s₂ hp hi hb ha, hi, hb]

/-- Witness for C6: two concrete states differing only in their rng field. -/
theorem igOutput_deterministic_witness :
    igOutput (fun p v i => p.sum * v i) 3
        (⟨[2], fun _ => 1, fun _ => 0, fun _ => 0, 0⟩ : AttrState 1)
      = igOutput (fun p v i => p.sum * v i) 3
          (⟨[2], fun _ => 1, fun _ => 0, fun _ => 0, 12345⟩ : AttrState 1)
      ∧ notebookStmts.head? = some (NbStmt.seedCall SEED) ∧ SEED = 42 :=
  igOutput_deterministic (fun p v i => p.sum * v i) 3 _ _ rfl rfl rfl rfl

/-! ## Error taxonomy (claim C3)

For shape errors the vectors must carry their length as data, so this part of
the model uses `List ℚ`.  The gradient oracle returns `none` at a
non-differentiable point. -/

/-- The spec's error taxonomy. -/
inductive AttrError where
  | ShapeMismatch
  | DegradedGradient
  | EmptyBatch
  | MissingLabel
deriving DecidableEq

/-- Modelled from the spec: the straight-path point over list-shaped inputs. -/
def interpPointL (x₀ x : List ℚ) (N k : ℕ) : List ℚ :=
  List.zipWith (fun b v => b + ((k : ℚ) / (N : ℚ)) * (v - b)) x₀ x

/-- Modelled from the spec: accumulation of the path gradients over the first
`k` of `N` steps, failing (`none`) as soon as the oracle reports a
non-differentiable point or a gradient of the wrong shape. -/
def gradSum (gradf : List ℚ → Option (List ℚ)) (x x₀ : List ℚ) (N : ℕ) :
    ℕ → Option (List ℚ)
  | 0 => some (List.replicate x.length 0)
  | k + 1 =>
      match gradSum gradf x x₀ N k, gradf (interpPointL x₀ x N (k + 1)) with
      | some acc, some g =>
          if g.length = x.length then some (List.zipWith (· + ·) acc g)
          else none
      | _, _ => none

/-- Modelled from the spec: the estimator with its error contract — it fails
with `ShapeMismatch` before any computation when input and baseline shapes
disagree, reports `DegradedGradient` instead of silently returning zero when
the oracle fails at a sampled point, and otherwise returns the full
attribution vector. -/
def igAttrChecked (gradf : List ℚ → Option (List ℚ)) (x x₀ : List ℚ)
    (N : ℕ) : Except AttrError (List ℚ) :=
  if x.length = x₀.length then
    match gradSum gradf x x₀ N N with
    | some s =>
        .ok (List.zipWith (fun p si => (p.1 - p.2) * (si / (N : ℚ)))
          (x.zip x₀) s)
    | none => .error .DegradedGradient
  else .error .ShapeMismatch

/-- Modelled from the spec: per-example attribution over a batch, failing as
a whole on the first failing example (no retry, no partial output). -/
def attributionBatch (gradf : List ℚ → Option (List ℚ)) (x₀ : List ℚ)
    (N : ℕ) : List (List ℚ) → Except AttrError (List (List ℚ))
  | [] => .ok []
  | ex :: rest =>
      match igAttrChecked gradf ex x₀ N, attributionBatch gradf x₀ N rest with
      | .ok a, .ok rs => .ok (a :: rs)
      | .error e, _ => .error e
      | .ok _, .error e => .error e

/-- Modelled from the spec: the Attribution Report over a batch, which rejects
an empty batch and otherwise is all-or-nothing over the batch. -/
def attributionReport (gradf : List ℚ → Option (List ℚ)) (x₀ : List ℚ)
    (N : ℕ) (batch : List (List ℚ)) : Except AttrError (List (List ℚ)) :=
  if batch = [] then .error .EmptyBatch
  else attributionBatch gradf x₀ N batch

/-- Modelled from the spec: label collection for a label-grouped report,
failing with `MissingLabel` when any example lacks its label. -/
def requireLabels (labels : List (Option ℚ)) : Except AttrError (List ℚ) :=
  if labels.any fun l => l.isNone then .error .MissingLabel
  else .ok (labels.filterMap id)

lemma gradSum_length (gradf : List ℚ → Option (List ℚ)) (x x₀ : List ℚ)
    (N k : ℕ) (s : List ℚ) (h : gradSum gradf x x₀ N k = some s) :
    s.length = x.length := by
  induction k generalizing s with
  | zero =>
      simp only [gradSum, Option.some.injEq] at h
      rw [← h, List.length_replicate]
  | succ m ih =>
      simp only [gradSum] at h
      cases hacc : gradSum gradf x x₀ N m with
      | none => rw [hacc] at h; exact absurd h (by simp)
      | some acc =>
          cases hg : gradf (interpPointL x₀ x N (m + 1)) with
          | none => rw [hacc, hg] at h; exact absurd h (by simp)
          | some g =>
              rw [hacc, hg] at h
              dsimp only at h
              by_cases hlen : g.length = x.length
              · rw [if_pos hlen, Option.some.injEq] at h
                rw [← h, List.length_zipWith, ih acc hacc, hlen,
                    Nat.min_self]
              · rw [if_neg hlen] at h
                exact absurd h (by simp)

lemma igAttrChecked_ok_length (gradf : List ℚ → Option (List ℚ))
    (x x₀ : List ℚ) (N : ℕ) (a : List ℚ)
    (h : igAttrChecked gradf x x₀ N = .ok a) : a.length = x.length := by
  unfold igAttrChecked at h
  by_cases hsh : x.length = x₀.length
  · rw [if_pos hsh] at h
    cases hs : gradSum gradf x x₀ N N with
    | none => rw [hs] at h; exact absurd h (by simp)
    | some s =>
        rw [hs] at h
        injection h with h
        rw [← h, List.length_zipWith, List.length_zip,
            gradSum_length gradf x x₀ N N s hs, ← hsh, Nat.min_self,
            Nat.min_self]
  · rw [if_neg hsh] at h
    exact absurd h (by simp)

lemma attributionBatch_ok_shape (gradf : List ℚ → Option (List ℚ))
    (x₀ : List ℚ) (N : ℕ) (batch : List (List ℚ)) (r : List (List ℚ))
    (h : attributionBatch gradf x₀ N batch = .ok r) :
    r.length = batch.length
      ∧ List.Forall₂ (fun a ex => a.length = ex.length) r batch := by
  induction batch generalizing r with
  | nil =>
      simp only [attributionBatch] at h
      injection h with h
      rw [← h]
      exact ⟨rfl, List.Forall₂.nil⟩
  | cons ex rest ih =>
      simp only [attributionBatch] at h
      cases h1 : igAttrChecked gradf ex x₀ N with
      | error e => rw [h1] at h; exact absurd h (by simp)
      | ok a =>
          cases h2 : attributionBatch gradf x₀ N rest with
          | error e => rw [h1, h2] at h; exact absurd h (by simp)
          | ok rs =>
              rw [h1, h2] at h
              injection h with h
              obtain ⟨hl, hf⟩ := ih rs h2
              rw [← h]
              exact ⟨by simp [hl],
                List.Forall₂.cons (igAttrChecked_ok_length gradf ex x₀ N a h1)
                  hf⟩

lemma attributionBatch_error_of_mem (gradf : List ℚ → Option (List ℚ))
    (x₀ : List ℚ) (N : ℕ) (batch : List (List ℚ))
    (h : ∃ ex ∈ batch, ∃ e, igAttrChecked gradf ex x₀ N = .error e) :
    ∃ e, attributionBatch gradf x₀ N batch = .error e := by
  induction batch with
  | nil =>
      obtain ⟨ex, hmem, _⟩ := h
      exact absurd hmem (List.not_mem_nil ex)
  | cons ex rest ih =>
      obtain ⟨ex0, hmem, e0, he0⟩ := h
      simp only [attributionBatch]
      rcases List.mem_cons.mp hmem with heq | hmem2
      · subst heq
        rw [he0]
        cases attributionBatch gradf x₀ N rest <;> exact ⟨e0, rfl⟩
      · cases h1 : igAttrChecked gradf ex x₀ N with
        | error e => exact ⟨e, by cases attributionBatch gradf x₀ N rest <;> rfl⟩
        | ok a =>
            obtain ⟨e, he⟩ := ih ⟨ex0, hmem2, e0, he0⟩
            rw [he]
            exact ⟨e, rfl⟩

/-- C3: when input and baseline shapes disagree the estimator fails with
`ShapeMismatch` without consulting the gradient oracle at all; an empty batch
is rejected with `EmptyBatch`; any failing example fails the whole report (no
silent recovery and no partial report); a successful report carries exactly
one full-shape attribution vector per example; and a label-grouped report
with an absent label fails with `MissingLabel`. -/
theorem attribution_error_taxonomy
    (gradf gradf₂ : List ℚ → Option (List ℚ)) (x x₀ : List ℚ) (N : ℕ)
    (batch : List (List ℚ)) (labels : List (Option ℚ)) :
    (x.length ≠ x₀.length →
        igAttrChecked gradf x x₀ N = .error .ShapeMismatch
          ∧ igAttrChecked gradf x x₀ N = igAttrChecked gradf₂ x x₀ N)
      ∧ (batch = [] → attributionReport gradf x₀ N batch = .error .EmptyBatch)
      ∧ ((∃ ex ∈ batch, ∃ e, igAttrChecked gradf ex x₀ N = .error e) →
            ∃ e, attributionReport gradf x₀ N batch = .error e)
      ∧ (∀ r, attributionReport gradf x₀ N batch = .ok r →
            r.length = batch.length
              ∧ List.Forall₂ (fun a ex => a.length = ex.length) r batch)
      ∧ (none ∈ labels → requireLabels labels = .error .MissingLabel) := by
  refine ⟨?_, ?_, ?_, ?_, ?_⟩
  · intro h
    unfold igAttrChecked
    rw [if_neg h, if_neg h]
    exact ⟨rfl, rfl⟩
  · intro h
    subst h
    rfl
  · intro h
    obtain ⟨ex, hmem, he⟩ := h
    unfold attributionReport
    rw [if_neg (List.ne_nil_of_mem hmem)]
    exact attributionBatch_error_of_mem gradf x₀ N batch ⟨ex, hmem, he⟩
  · intro r h
    unfold attributionReport at h
    by_cases hb : batch = []
    · rw [if_pos hb] at h
      exact absurd h (by simp)
    · rw [if_neg hb] at h
      exact attributionBatch_ok_shape gradf x₀ N batch r h
  · intro h
    unfold requireLabels
    rw [if_pos (List.any_eq_true.mpr ⟨none, h, rfl⟩)]

/-- Witness for C3 at a concrete oracle, inputs of mismatched shapes, an
empty batch, a batch containing a mismatched example, and a missing label. -/
theorem attribution_error_taxonomy_witness :
    igAttrChecked (fun v => some (v.map fun _ => 1)) [1, 2] [0] 5
        = .error .ShapeMismatch
      ∧ attributionReport (fun v => some (v.map fun _ => 1)) [0] 5 []
          = .error .EmptyBatch
      ∧ (∃ e, attributionReport (fun v => some (v.map fun _ => 1)) [0] 5
            [[1, 2]] = .error e)
      ∧ requireLabels [none] = .error .MissingLabel := by
  have t1 := attribution_error_taxonomy (fun v => some (v.map fun _ => 1))
    (fun _ => none) [1, 2] [0] 5 [[1, 2]] [none]
  have t2 := attribution_error_taxonomy (fun v => some (v.map fun _ => 1))
    (fun _ => none) [1, 2] [0] 5 [] [none]
  have h1 := (t1.1 (by decide)).1
  exact ⟨h1, t2.2.1 rfl,
    t1.2.2.1 ⟨[1, 2], by simp, AttrError.ShapeMismatch, h1⟩,
    t1.2.2.2.2 (by simp)⟩

/-! ## Exposed attribution interface (claim C8)

The spec's section 6 lists the operations the attribution component exposes;
the notebook's invocations of the `Attribution` object are embedded in
`notebookStmts` above, with the parameter lists of the source calls carried on
the `NbStmt` constructors (`visualizeIG maxRows taskName`,
`visualizeEG maxRows numBaselines taskName`). -/

/-- The operations of the attribution component named in the spec. -/
inductive AttrOp where
  | average_tokens_attr
  | average_embeddings_attr
  | visualize_integrated_gradients
  | visualize_expected_gradients
deriving DecidableEq

/-- The spec's exposed-operation list, in the spec's order. -/
def specExposedOps : List AttrOp :=
  [.average_tokens_attr, .average_embeddings_attr,
   .visualize_integrated_gradients, .visualize_expected_gradients]

/-- The attribution operation (if any) a notebook statement invokes. -/
def attrOpOf : NbStmt → Option AttrOp
  | .averageTokensAttr => some .average_tokens_attr
  | .averageEmbeddingsAttr => some .average_embeddings_attr
  | .visualizeIG _ _ => some .visualize_integrated_gradients
  | .visualizeEG _ _ _ => some .visualize_expected_gradients
  | _ => none

/-- The `max_rows` argument of a `visualize_integrated_gradients` call. -/
def igMaxRowsOf : NbStmt → Option ℕ
  | .visualizeIG r _ => some r
  | _ => none

/-- The `max_rows` argument of a `visualize_expected_gradients` call. -/
def egMaxRowsOf : NbStmt → Option ℕ
  | .visualizeEG r _ _ => some r
  | _ => none

/-- The `num_baselines` argument of a `visualize_expected_gradients` call. -/
def egNumBaselinesOf : NbStmt → Option ℕ
  | .visualizeEG _ k _ => some k
  | _ => none

/-- C8: the attribution operations the notebook invokes are exactly the four
operations of the spec's exposed interface, in order, each invoked once, and
the visualization calls pass `max_rows = 10` and `num_baselines = 10`. -/
theorem exposed_interface_calls :
    notebookStmts.filterMap attrOpOf = specExposedOps
      ∧ notebookStmts.filterMap igMaxRowsOf = [10]
      ∧ notebookStmts.filterMap egMaxRowsOf = [10]
      ∧ notebookStmts.filterMap egNumBaselinesOf = [10] :=
  ⟨rfl, rfl, rfl, rfl⟩

/-! ## ROC comparison notebook (claims C9 and C10)

Embedding of CompareAUROC-Poster.ipynb: its constants, which prediction
arrays it loads, the preprocessing applied to each model's score, and which
(labels, score) pairs feed `roc_curve`, `roc_auc_score` and the plot. -/

/-- The three models the ROC notebook compares. -/
inductive MLModel where
  | xgboost
  | bilstm
  | bigbird
deriving DecidableEq, Fintype

/-- The kinds of precomputed arrays loaded per model. -/
inductive ArrKind where
  | pred
  | labels
  | prob
deriving DecidableEq, Fintype

/-- Test-size constant of the ROC notebook. -/
def TEST_SIZE : String := "512"

/-- Test-group constant of the ROC notebook. -/
def TEST_GROUP : String := "two_weeks"

/-- Test-group token used in the transformer's result file names. -/
def TRANSFORMER_TEST_GROUP : String :=
  if TEST_GROUP = "two_weeks" then "week" else "month"

/-- The arrays the ROC notebook loads, as (model, kind) pairs in load order. -/
def loadedArrays : List (MLModel × ArrKind) :=
  [ (.xgboost, .pred), (.xgboost, .labels), (.xgboost, .prob),
    (.bilstm, .pred), (.bilstm, .labels), (.bilstm, .prob),
    (.bigbird, .pred), (.bigbird, .labels), (.bigbird, .prob) ]

/-- A value expression of the ROC notebook: a loaded array, a column
selection `arr[:, j]`, or an element-wise logistic sigmoid (scipy's expit). -/
inductive ScoreExpr where
  | load (m : MLModel) (k : ArrKind)
  | col (e : ScoreExpr) (j : ℕ)
  | expit (e : ScoreExpr)
deriving DecidableEq

/-- XGBoost score fed to the metrics: second column of its probability
array, no sigmoid. -/
def y_xgboost_prob : ScoreExpr := .col (.load .xgboost .prob) 1

/-- Bi-LSTM score fed to the metrics: the loaded probability array
unmodified. -/
def y_lstm_prob : ScoreExpr := .load .bilstm .prob

/-- Transformer score fed to the metrics: expit of the second column of its
probability array. -/
def y_transformer_prob : ScoreExpr := .expit (.col (.load .bigbird .prob) 1)

/-- Labels array of a model. -/
def y_labels (m : MLModel) : ScoreExpr := .load m .labels

/-- The preprocessed score of each model, as the metrics consume it. -/
def scoreOf : MLModel → ScoreExpr
  | .xgboost => y_xgboost_prob
  | .bilstm => y_lstm_prob
  | .bigbird => y_transformer_prob

/-- One metric invocation: which model, and the two argument expressions. -/
structure RocCall where
  model : MLModel
  labelsArg : ScoreExpr
  scoreArg : ScoreExpr
deriving DecidableEq

/-- The `roc_curve` invocations of the notebook, in source order. -/
def roc_curve_calls : List RocCall :=
  [ ⟨.xgboost, y_labels .xgboost, y_xgboost_prob⟩,
    ⟨.bilstm, y_labels .bilstm, y_lstm_prob⟩,
    ⟨.bigbird, y_labels .bigbird, y_transformer_prob⟩ ]

/-- The `roc_auc_score` invocations of the notebook, in source order. -/
def roc_auc_score_calls : List RocCall :=
  [ ⟨.xgboost, y_labels .xgboost, y_xgboost_prob⟩,
    ⟨.bilstm, y_labels .bilstm, y_lstm_prob⟩,
    ⟨.bigbird, y_labels .bigbird, y_transformer_prob⟩ ]

/-- The models whose ROC curves the plotting cell draws, in plot order. -/
def plottedModels : List MLModel := [.bigbird, .xgboost, .bilstm]

/-- C9: the ROC notebook loads precomputed arrays for exactly the three
models XGBoost, Bi-LSTM and BigBird; for each it computes an ROC curve and an
AUROC score from that model's own labels and preprocessed probabilities, over
the one configured test group (whose token in the transformer file names is
"week" for the "two_weeks" group); and all three curves are plotted. -/
theorem roc_three_models :
    (loadedArrays.map Prod.fst).dedup = [.xgboost, .bilstm, .bigbird]
      ∧ roc_curve_calls.map RocCall.model = [.xgboost, .bilstm, .bigbird]
      ∧ roc_auc_score_calls = roc_curve_calls
      ∧ (roc_curve_calls.map RocCall.labelsArg
          = (roc_curve_calls.map RocCall.model).map y_labels)
      ∧ (roc_curve_calls.map RocCall.scoreArg
          = (roc_curve_calls.map RocCall.model).map scoreOf)
      ∧ (∀ m : MLModel, m ∈ plottedModels)
      ∧ TEST_GROUP = "two_weeks" ∧ TRANSFORMER_TEST_GROUP = "week" := by
  decide

/-- Number of expit (sigmoid) applications in a score expression. -/
def expitCount : ScoreExpr → ℕ
  | .load _ _ => 0
  | .col e _ => expitCount e
  | .expit e => expitCount e + 1

/-- Number of column selections in a score expression. -/
def colCount : ScoreExpr → ℕ
  | .load _ _ => 0
  | .col e _ => colCount e + 1
  | .expit e => colCount e

/-- The underlying loaded array of a score expression. -/
def baseArr : ScoreExpr → MLModel × ArrKind
  | .load m k => (m, k)
  | .col e _ => baseArr e
  | .expit e => baseArr e

/-- C10: the transformer score applies exactly one sigmoid to the second
column of its loaded probability array; the XGBoost score is the raw second
column of its probability array with no sigmoid; the Bi-LSTM score is its
loaded probability array unmodified; and every `roc_curve` and
`roc_auc_score` invocation consumes exactly these once-preprocessed
expressions. -/
theorem score_preprocessing_once :
    (expitCount (scoreOf .bigbird) = 1 ∧ colCount (scoreOf .bigbird) = 1
        ∧ scoreOf .bigbird = .expit (.col (.load .bigbird .prob) 1))
      ∧ (expitCount (scoreOf .xgboost) = 0 ∧ colCount (scoreOf .xgboost) = 1
          ∧ scoreOf .xgboost = .col (.load .xgboost .prob) 1)
      ∧ (expitCount (scoreOf .bilstm) = 0 ∧ colCount (scoreOf .bilstm) = 0
          ∧ scoreOf .bilstm = .load .bilstm .prob)
      ∧ (baseArr (scoreOf .bigbird) = (.bigbird, .prob)
          ∧ baseArr (scoreOf .xgboost) = (.xgboost, .prob)
          ∧ baseArr (scoreOf .bilstm) = (.bilstm, .prob))
      ∧ (roc_curve_calls.map RocCall.scoreArg
            = (roc_curve_calls.map RocCall.model).map scoreOf
          ∧ roc_auc_score_calls.map RocCall.scoreArg
            = (roc_auc_score_calls.map RocCall.model).map scoreOf) := by
  decide

end Odyssey
